import Mathlib

/-!
Shallow embedding of the scheduler / session-orchestration core of the
repository (src/manager.js, backed by src/db.js).

Modelling conventions:
* Timestamps are natural numbers counting minutes since an arbitrary epoch.
  The UTC calendar date of a timestamp is `t / 1440` (the code derives dates
  with `Date.toISOString()`, i.e. in UTC, so equality of ISO date prefixes is
  equality of `t / 1440`).
* Account records mirror the fields stored by `db.js` (`addAccount`); the
  credential material is opaque to the core and carried as a plain string.
* Statuses are the literal strings used by the code: "idle", "running",
  "error".
* The session executor (`runSession`, external to the core) is a parameter
  `exec : Account → ExecOutcome`; `ExecOutcome.ok success reason` models a
  normal return of `{success, reason}` and `ExecOutcome.fault msg` models an
  unexpected thrown fault whose description is `msg`.
* The orchestrator `executeSession` returns, besides its JS result value and
  the final state, the list of observable events (store reads, executor
  invocations, notifications) and the list of store snapshots taken right
  after each store write, so that invariants "at every observable instant"
  can be stated.
* Wall-clock inputs of a tick (the local hour and the current timestamp) are
  passed as parameters and held fixed during the tick.
-/

/-- An account record as persisted by `db.js`. -/
structure Account where
  id : Nat
  name : String
  encryptedCode : String
  targetServer : String
  lastRun : Option Nat
  status : String
  deriving Repr, DecidableEq

/-- The result value returned by `executeSession` (`{success, message?}`). -/
structure SResult where
  success : Bool
  message : Option String
  deriving Repr, DecidableEq

/-- Outcome of invoking the external session executor on one account. -/
inductive ExecOutcome where
  | ok (success : Bool) (reason : String)
  | fault (msg : String)
  deriving Repr, DecidableEq

/-- `true` exactly on the thrown-fault outcome. -/
def ExecOutcome.isFault : ExecOutcome → Bool
  | .fault _ => true
  | .ok _ _ => false

/-- Observable events of the orchestrator: a store read of one account
(`getAccountDecrypted`), an invocation of the external executor
(`runSession`), and a notification dispatch (`sendLog`), tagged by kind. -/
inductive Event where
  | readAccount (id : Nat)
  | execCall (id : Nat)
  | notify (kind : String)
  deriving Repr, DecidableEq

/-- Mutable state of the manager module: the process-wide lock `isRunning`
and the persisted account list. -/
structure MState where
  isRunning : Bool
  accounts : List Account
  deriving Repr, DecidableEq

/-- `db.js` `updateAccountStatus(id, status, lastRun = null)`: finds the first
account with the given id, sets its status, and overwrites `lastRun` only
when a (truthy) value is passed; absent id leaves the store unchanged. -/
def updateAccountStatus (accounts : List Account) (id : Nat) (status : String)
    (lastRun : Option Nat) : List Account :=
  match accounts with
  | [] => []
  | a :: rest =>
    if a.id = id then
      { a with status := status,
               lastRun := if lastRun.isSome then lastRun else a.lastRun } :: rest
    else
      a :: updateAccountStatus rest id status lastRun

/-- The UTC calendar date of a timestamp in minutes
(`new Date(t).toISOString().split('T')[0]`). -/
def utcDate (t : Nat) : Nat := t / 1440

/-- The pending filter of `checkAndRun`: an account is pending when it has no
`lastRun` or its `lastRun` UTC date differs from `today`. -/
def isPending (today : Nat) (a : Account) : Bool :=
  match a.lastRun with
  | none => true
  | some t => if utcDate t = today then false else true

/-- The pending set computed at the top of a tick:
`accounts.filter(...)` with the lastRun-date test. -/
def pendingAccounts (today : Nat) (accounts : List Account) : List Account :=
  accounts.filter (fun a => isPending today a)

/-- The time-window check of `checkAndRun`: a same-day schedule
(`start < end`) is active on `[start, end)`; a cross-midnight schedule
(`start >= end`) is active when the hour is at or after `start` or strictly
before `end`. -/
def isActiveTime (startHour endHour currentHour : Nat) : Bool :=
  if startHour < endHour then
    decide (startHour ≤ currentHour) && decide (currentHour < endHour)
  else
    decide (startHour ≤ currentHour) || decide (currentHour < endHour)

/-- Everything one call of `executeSession` produces: its JS result, the
final module state, the event list, and the store snapshots taken after each
store write (the stores at which an observer could look during the call). -/
structure SessionOutcome where
  result : SResult
  state : MState
  events : List Event
  stores : List (List Account)
  deriving Repr, DecidableEq

/-- `executeSession(accountId)` of `manager.js`: fail fast when the lock is
held; otherwise take the lock, resolve the account (fail when absent), mark
it `running`, invoke the executor, and on a normal return mark the account
`idle` (stamping `lastRun`) on success or `error` on failure, mapping the
reason `"BUSY"` to the result message `"BUSY"`; a thrown executor fault is
caught and converted to a failure result carrying the fault description. The
`finally` block clears the lock on every path that acquired it. -/
def executeSession (exec : Account → ExecOutcome) (now : Nat) (st : MState)
    (accountId : Nat) : SessionOutcome :=
  if st.isRunning then
    { result := { success := false, message := some "Bot is already running a session." }
      state := st
      events := []
      stores := [] }
  else
    match st.accounts.find? (fun a => a.id = accountId) with
    | none =>
      { result := { success := false, message := some "Account not found" }
        state := { isRunning := false, accounts := st.accounts }
        events := [Event.readAccount accountId]
        stores := [] }
    | some account =>
      let l1 := updateAccountStatus st.accounts account.id "running" none
      let ev0 := [Event.readAccount accountId, Event.notify "start"]
      match exec account with
      | .ok true _ =>
        let l2 := updateAccountStatus l1 account.id "idle" (some now)
        { result := { success := true, message := none }
          state := { isRunning := false, accounts := l2 }
          events := ev0 ++ [Event.execCall account.id, Event.notify "success"]
          stores := [l1, l2] }
      | .ok false reason =>
        let l2 := updateAccountStatus l1 account.id "error" none
        { result :=
            if reason = "BUSY" then { success := false, message := some "BUSY" }
            else { success := false, message := some reason }
          state := { isRunning := false, accounts := l2 }
          events := ev0 ++ [Event.execCall account.id, Event.notify "error"]
          stores := [l1, l2] }
      | .fault msg =>
        { result := { success := false, message := some msg }
          state := { isRunning := false, accounts := l1 }
          events := ev0 ++ [Event.execCall account.id]
          stores := [l1] }

/-- The sequential batch loop inside `checkAndRun`: for each pending
candidate, first re-check the wall-clock hour against `endHour`
(`if (new Date().getHours() >= endHour) break`), then run the session and
stop the whole batch when the result is a failure with message `"BUSY"`. -/
def runBatch (exec : Account → ExecOutcome) (now currentHour endHour : Nat) :
    List Account → MState → MState × List Event
  | [], st => (st, [])
  | account :: rest, st =>
    if endHour ≤ currentHour then (st, [])
    else
      let o := executeSession exec now st account.id
      if o.result.success = false ∧ o.result.message = some "BUSY" then
        (o.state, o.events)
      else
        ((runBatch exec now currentHour endHour rest o.state).1,
         o.events ++ (runBatch exec now currentHour endHour rest o.state).2)

/-- `checkAndRun` of `manager.js`: skip the tick when the lock is held or the
window is inactive; compute the pending set from today's UTC date; skip when
it is empty; otherwise run the batch loop over the pending candidates. -/
def checkAndRun (exec : Account → ExecOutcome) (now currentHour startHour endHour : Nat)
    (st : MState) : MState × List Event :=
  if st.isRunning then (st, [])
  else if isActiveTime startHour endHour currentHour = false then (st, [])
  else
    let today := utcDate now
    let pend := pendingAccounts today st.accounts
    if pend.isEmpty then (st, [])
    else runBatch exec now currentHour endHour pend st

/-- `account.lastRun && account.lastRun.startsWith(today)`: the account has a
`lastRun` and its UTC date is today. -/
def ranToday (today : Nat) (a : Account) : Bool :=
  match a.lastRun with
  | some t => decide (utcDate t = today)
  | none => false

/-- The classification loop of `generateDailyReport`: first branch collects
accounts whose `lastRun` starts with today's date and whose status is not
`error`; the second collects the remaining accounts with status `error`; the
rest fall through to the not-run bucket. Returns the three name lists
(successful, failed, pending) in account order. -/
def classifyAccounts (today : Nat) : List Account → List String × List String × List String
  | [] => ([], [], [])
  | a :: rest =>
    let (s, f, p) := classifyAccounts today rest
    if ranToday today a && decide (a.status ≠ "error") then
      (a.name :: s, f, p)
    else if a.status = "error" then
      (s, a.name :: f, p)
    else
      (s, f, a.name :: p)

/-- `generateDailyReport` of `manager.js`: reads the full account list,
classifies it, and emits one summary notification; it performs no store
write, so the state is returned unchanged alongside the categorization. -/
def generateDailyReport (today : Nat) (st : MState) :
    MState × (List String × List String × List String) :=
  (st, classifyAccounts today st.accounts)

/-- A sequence of orchestrator invocations (by account id), run back to back
against the evolving state; returns the final state and the concatenation of
all store snapshots observed during the invocations. -/
def runSeq (exec : Account → ExecOutcome) (now : Nat) :
    List Nat → MState → MState × List (List Account)
  | [], st => (st, [])
  | id :: ids, st =>
    ((runSeq exec now ids (executeSession exec now st id).state).1,
     (executeSession exec now st id).stores ++
       (runSeq exec now ids (executeSession exec now st id).state).2)

/-- Number of account records whose status is the literal "running". -/
def countRunning (accounts : List Account) : Nat :=
  (accounts.filter (fun a => a.status = "running")).length

/-- Modelled from the spec: the spec's Run-Cycle sentence derives "pending"
from the account's `lastRun` calendar date *in local time*; the local
calendar date of a timestamp under a timezone offset of `tz` minutes east of
UTC. (The code itself has no local-date computation for this purpose: it
compares `toISOString()` prefixes, i.e. `utcDate`.) -/
def localDate (tz t : Nat) : Nat := (t + tz) / 1440

/-- Modelled from the spec: the pending predicate as the spec states it,
comparing local calendar dates under timezone offset `tz`. -/
def isPendingSpecLocal (tz nowT : Nat) (a : Account) : Bool :=
  match a.lastRun with
  | none => true
  | some t => if localDate tz t = localDate tz nowT then false else true

/-! Concrete fixtures used to exercise the model at specific inputs. -/

/-- A fresh account that has never run. -/
def acctA : Account :=
  { id := 1, name := "A", encryptedCode := "cA", targetServer := "s1",
    lastRun := none, status := "idle" }

/-- A second fresh account. -/
def acctB : Account :=
  { id := 2, name := "B", encryptedCode := "cB", targetServer := "s1",
    lastRun := none, status := "idle" }

/-- A third fresh account. -/
def acctC : Account :=
  { id := 3, name := "C", encryptedCode := "cC", targetServer := "s2",
    lastRun := none, status := "idle" }

/-- An account whose `lastRun` is at minute 1439 (23:59 UTC of day 0), which
is 05:29 of day 1 at a +330-minute (UTC+5:30) local offset. -/
def acctStale : Account :=
  { id := 7, name := "G", encryptedCode := "cG", targetServer := "s1",
    lastRun := some 1439, status := "idle" }

/-- State with the single fresh account `acctA`, lock free. -/
def stA : MState := { isRunning := false, accounts := [acctA] }

/-- State with accounts `acctA, acctB`, lock free. -/
def stAB : MState := { isRunning := false, accounts := [acctA, acctB] }

/-- State with accounts `acctA, acctB, acctC`, lock free. -/
def stABC : MState := { isRunning := false, accounts := [acctA, acctB, acctC] }

/-- State with no accounts and the lock held. -/
def stLocked : MState := { isRunning := true, accounts := [acctA] }

/-- State with the single account `acctStale`, lock free. -/
def stStale : MState := { isRunning := false, accounts := [acctStale] }

/-- An executor that always succeeds. -/
def exOK : Account → ExecOutcome := fun _ => ExecOutcome.ok true ""

/-- An executor that fails with an ordinary (non-BUSY) reason. -/
def exFailBad : Account → ExecOutcome := fun _ => ExecOutcome.ok false "bad credentials"

/-- An executor that throws for account 1 and succeeds for the rest. -/
def exFault1 : Account → ExecOutcome := fun a =>
  if a.id = 1 then ExecOutcome.fault "crash" else ExecOutcome.ok true ""

/-- An executor that always throws. -/
def exFaultAll : Account → ExecOutcome := fun _ => ExecOutcome.fault "boom"

/-- An executor that reports remote capacity exhaustion for account 2 and
succeeds for the rest (the spec's A-succeeds, B-BUSY, C-untouched scenario). -/
def exBusy2 : Account → ExecOutcome := fun a =>
  if a.id = 2 then ExecOutcome.ok false "BUSY" else ExecOutcome.ok true ""

/-! Basic lemmas about the store update. -/

/-- `updateAccountStatus` never changes the list of ids. -/
theorem updateAccountStatus_map_id (l : List Account) (i : Nat) (s : String)
    (r : Option Nat) :
    (updateAccountStatus l i s r).map Account.id = l.map Account.id := by
  induction l with
  | nil => rfl
  | cons a rest ih =>
    by_cases h : a.id = i
    · simp [updateAccountStatus, h]
    · simp [updateAccountStatus, h, ih]

/-- Looking up an id other than the updated one is unaffected by
`updateAccountStatus`. -/
theorem find?_updateAccountStatus_ne (l : List Account) (i j : Nat) (s : String)
    (r : Option Nat) (hne : j ≠ i) :
    (updateAccountStatus l i s r).find? (fun a => a.id = j) =
      l.find? (fun a => a.id = j) := by
  induction l with
  | nil => rfl
  | cons a rest ih =>
    simp only [updateAccountStatus]
    by_cases h : a.id = i
    · rw [if_pos h]
      rw [List.find?_cons_of_neg, List.find?_cons_of_neg]
      · simp only [decide_eq_true_eq]
        exact fun hj => hne (hj ▸ h)
      · simp only [decide_eq_true_eq]
        exact fun hj => hne (hj ▸ h)
    · rw [if_neg h]
      by_cases haj : a.id = j
      · rw [List.find?_cons_of_pos, List.find?_cons_of_pos] <;>
          simp only [decide_eq_true_eq] <;> exact haj
      · rw [List.find?_cons_of_neg, List.find?_cons_of_neg, ih] <;>
          simp only [decide_eq_true_eq] <;> exact haj

/-- A status-only update (no `lastRun` argument) preserves the `lastRun`
of every lookup, the updated id included. -/
theorem find?_lastRun_updateAccountStatus_none (l : List Account) (i j : Nat)
    (s : String) :
    ((updateAccountStatus l i s none).find? (fun a => a.id = j)).map Account.lastRun =
      (l.find? (fun a => a.id = j)).map Account.lastRun := by
  induction l with
  | nil => rfl
  | cons a rest ih =>
    simp only [updateAccountStatus]
    by_cases h : a.id = i
    · rw [if_pos h]
      by_cases haj : a.id = j
      · rw [List.find?_cons_of_pos, List.find?_cons_of_pos] <;>
          try (simp only [decide_eq_true_eq]; exact haj)
        rfl
      · rw [List.find?_cons_of_neg, List.find?_cons_of_neg] <;>
          try (simp only [decide_eq_true_eq]; exact haj)
    · rw [if_neg h]
      by_cases haj : a.id = j
      · rw [List.find?_cons_of_pos, List.find?_cons_of_pos] <;>
          simp only [decide_eq_true_eq] <;> exact haj
      · rw [List.find?_cons_of_neg, List.find?_cons_of_neg, ih] <;>
          simp only [decide_eq_true_eq] <;> exact haj

/-- `countRunning` over a cons cell. -/
theorem countRunning_cons (a : Account) (l : List Account) :
    countRunning (a :: l) =
      (if a.status = "running" then 1 else 0) + countRunning l := by
  simp only [countRunning, List.filter_cons]
  by_cases h : a.status = "running"
  · simp [h, Nat.add_comm]
  · simp [h]

/-- A single store update can raise the number of running accounts by at
most one. -/
theorem countRunning_updateAccountStatus_le (l : List Account) (i : Nat)
    (s : String) (r : Option Nat) :
    countRunning (updateAccountStatus l i s r) ≤ countRunning l + 1 := by
  induction l with
  | nil => simp [updateAccountStatus, countRunning]
  | cons a rest ih =>
    simp only [updateAccountStatus]
    by_cases h : a.id = i
    · rw [if_pos h, countRunning_cons, countRunning_cons]
      split <;> split <;> omega
    · rw [if_neg h, countRunning_cons, countRunning_cons]
      have hc : (if a.status = "running" then 1 else 0) ≤ 1 := by split <;> omega
      omega

/-- Setting an account `running` and then overwriting the same account with a
non-running status leaves the number of running accounts no larger than
before. -/
theorem countRunning_upd_upd (l : List Account) (i : Nat) (s : String)
    (r1 r2 : Option Nat) (hs : ¬ s = "running") :
    countRunning
        (updateAccountStatus (updateAccountStatus l i "running" r1) i s r2) ≤
      countRunning l := by
  induction l with
  | nil => simp [updateAccountStatus, countRunning]
  | cons a rest ih =>
    simp only [updateAccountStatus]
    by_cases h : a.id = i
    · rw [if_pos h]
      simp only [updateAccountStatus]
      rw [if_pos h]
      simp only [countRunning_cons]
      rw [if_neg hs]
      split <;> omega
    · rw [if_neg h]
      simp only [updateAccountStatus]
      rw [if_neg h, countRunning_cons, countRunning_cons]
      omega

/-- Mapping the conditional status replacement over a list that does not
contain the id is the identity. -/
theorem map_status_id (l : List Account) (i : Nat) (s : String)
    (h : ∀ b ∈ l, b.id ≠ i) :
    l.map (fun b => if b.id = i then { b with status := s } else b) = l := by
  induction l with
  | nil => rfl
  | cons a rest ih =>
    have ih2 := ih (fun b hb => h b (List.mem_cons_of_mem _ hb))
    simp only [List.map_cons]
    rw [if_neg (h a (List.mem_cons_self _ _)), ih2]

/-- On a store with pairwise distinct ids, marking an account `running` and
then overwriting it with status `s2` (both without a `lastRun` argument) is
exactly the pointwise replacement of that account's status by `s2`. -/
theorem updateAccountStatus_twice_eq_map (l : List Account) (i : Nat)
    (s1 s2 : String) (hnodup : (l.map Account.id).Nodup) :
    updateAccountStatus (updateAccountStatus l i s1 none) i s2 none =
      l.map (fun b => if b.id = i then { b with status := s2 } else b) := by
  induction l with
  | nil => rfl
  | cons a rest ih =>
    simp only [List.map_cons, List.nodup_cons] at hnodup
    obtain ⟨hnotin, hrest⟩ := hnodup
    simp only [updateAccountStatus, List.map_cons]
    by_cases h : a.id = i
    · rw [if_pos h, if_pos h]
      have hm : rest.map (fun b => if b.id = i then { b with status := s2 } else b) =
          rest := by
        apply map_status_id
        intro b hb hbi
        exact hnotin (List.mem_map.mpr ⟨b, hb, hbi.trans h.symm⟩)
      rw [hm]
      simp only [updateAccountStatus]
      rw [if_pos h]
      rfl
    · rw [if_neg h]
      simp only [updateAccountStatus]
      rw [if_neg h, if_neg h, ih hrest]

/-! Lemmas about a single orchestrator invocation. -/

/-- An invocation entered with the lock free ends with the lock free, on
every path (the `finally` release). -/
theorem executeSession_isRunning_false (exec : Account → ExecOutcome) (now : Nat)
    (st : MState) (accountId : Nat) (h : st.isRunning = false) :
    (executeSession exec now st accountId).state.isRunning = false := by
  unfold executeSession
  split
  · rename_i hrun
    rw [h] at hrun
    cases hrun
  · split
    · rfl
    · split <;> rfl

/-- An invocation never changes the list of account ids. -/
theorem executeSession_map_id (exec : Account → ExecOutcome) (now : Nat)
    (st : MState) (accountId : Nat) :
    (executeSession exec now st accountId).state.accounts.map Account.id =
      st.accounts.map Account.id := by
  unfold executeSession
  split
  · rfl
  · split
    · rfl
    · split <;> simp [updateAccountStatus_map_id]

/-- An invocation targeting `accountId` leaves every lookup of a different id
untouched. -/
theorem executeSession_find?_ne (exec : Account → ExecOutcome) (now : Nat)
    (st : MState) (accountId j : Nat) (hj : j ≠ accountId) :
    (executeSession exec now st accountId).state.accounts.find?
        (fun a => a.id = j) =
      st.accounts.find? (fun a => a.id = j) := by
  unfold executeSession
  split
  · rfl
  · split
    · rfl
    · rename_i account hf
      have hid : account.id = accountId := by
        have := List.find?_some hf
        exact of_decide_eq_true this
      have hj2 : j ≠ account.id := hid.symm ▸ hj
      split <;>
        simp [find?_updateAccountStatus_ne _ _ _ _ _ hj2]


/-- Path equation: invocation while the lock is held. -/
theorem executeSession_locked (exec : Account → ExecOutcome) (now : Nat)
    (st : MState) (accountId : Nat) (h : st.isRunning = true) :
    executeSession exec now st accountId =
      { result := { success := false, message := some "Bot is already running a session." }
        state := st
        events := []
        stores := [] } := by
  simp [executeSession, h]

/-- Path equation: lock free but the account id is absent from the store. -/
theorem executeSession_notfound (exec : Account → ExecOutcome) (now : Nat)
    (st : MState) (accountId : Nat) (h : st.isRunning = false)
    (hf : st.accounts.find? (fun a => a.id = accountId) = none) :
    executeSession exec now st accountId =
      { result := { success := false, message := some "Account not found" }
        state := { isRunning := false, accounts := st.accounts }
        events := [Event.readAccount accountId]
        stores := [] } := by
  simp [executeSession, h, hf]

/-- Path equation: the executor returns success. -/
theorem executeSession_ok_true (exec : Account → ExecOutcome) (now : Nat)
    (st : MState) (accountId : Nat) (account : Account) (reason : String)
    (h : st.isRunning = false)
    (hf : st.accounts.find? (fun a => a.id = accountId) = some account)
    (he : exec account = .ok true reason) :
    executeSession exec now st accountId =
      { result := { success := true, message := none }
        state := { isRunning := false,
                   accounts := updateAccountStatus
                     (updateAccountStatus st.accounts account.id "running" none)
                     account.id "idle" (some now) }
        events := [Event.readAccount accountId, Event.notify "start",
                   Event.execCall account.id, Event.notify "success"]
        stores := [updateAccountStatus st.accounts account.id "running" none,
                   updateAccountStatus
                     (updateAccountStatus st.accounts account.id "running" none)
                     account.id "idle" (some now)] } := by
  simp [executeSession, h, hf, he]

/-- Path equation: the executor returns an ordinary failure result. -/
theorem executeSession_ok_false (exec : Account → ExecOutcome) (now : Nat)
    (st : MState) (accountId : Nat) (account : Account) (reason : String)
    (h : st.isRunning = false)
    (hf : st.accounts.find? (fun a => a.id = accountId) = some account)
    (he : exec account = .ok false reason) :
    executeSession exec now st accountId =
      { result :=
          if reason = "BUSY" then { success := false, message := some "BUSY" }
          else { success := false, message := some reason }
        state := { isRunning := false,
                   accounts := updateAccountStatus
                     (updateAccountStatus st.accounts account.id "running" none)
                     account.id "error" none }
        events := [Event.readAccount accountId, Event.notify "start",
                   Event.execCall account.id, Event.notify "error"]
        stores := [updateAccountStatus st.accounts account.id "running" none,
                   updateAccountStatus
                     (updateAccountStatus st.accounts account.id "running" none)
                     account.id "error" none] } := by
  simp [executeSession, h, hf, he]

/-- Path equation: the executor throws; the catch block converts the fault
into a failure result and the account is left in `running` status. -/
theorem executeSession_fault (exec : Account → ExecOutcome) (now : Nat)
    (st : MState) (accountId : Nat) (account : Account) (msg : String)
    (h : st.isRunning = false)
    (hf : st.accounts.find? (fun a => a.id = accountId) = some account)
    (he : exec account = .fault msg) :
    executeSession exec now st accountId =
      { result := { success := false, message := some msg }
        state := { isRunning := false,
                   accounts := updateAccountStatus st.accounts account.id "running" none }
        events := [Event.readAccount accountId, Event.notify "start",
                   Event.execCall account.id]
        stores := [updateAccountStatus st.accounts account.id "running" none] } := by
  simp [executeSession, h, hf, he]

/-- The account found by an id lookup carries that id. -/
theorem find?_id_eq (l : List Account) (i : Nat) (account : Account)
    (hf : l.find? (fun a => a.id = i) = some account) : account.id = i := by
  have h1 := List.find?_some hf
  simpa using h1

/-- The only executor call an invocation can record is for its own target
account id. -/
theorem executeSession_execCall_mem (exec : Account → ExecOutcome) (now : Nat)
    (st : MState) (accountId j : Nat)
    (h : Event.execCall j ∈ (executeSession exec now st accountId).events) :
    j = accountId := by
  cases hrun : st.isRunning with
  | true =>
    rw [executeSession_locked exec now st accountId hrun] at h
    cases h
  | false =>
    cases hf : st.accounts.find? (fun a => a.id = accountId) with
    | none =>
      rw [executeSession_notfound exec now st accountId hrun hf] at h
      simp at h
    | some account =>
      have hid : account.id = accountId := find?_id_eq _ _ _ hf
      cases he : exec account with
      | ok success reason =>
        cases success
        · rw [executeSession_ok_false exec now st accountId account reason hrun hf he] at h
          simp at h
          rw [← hid]
          exact h
        · rw [executeSession_ok_true exec now st accountId account reason hrun hf he] at h
          simp at h
          rw [← hid]
          exact h
      | fault msg =>
        rw [executeSession_fault exec now st accountId account msg hrun hf he] at h
        simp at h
        rw [← hid]
        exact h

/-- One invocation of a never-throwing executor keeps the store free of
`running` records at its end, and every store snapshot taken during it holds
at most one `running` record. -/
theorem executeSession_countRunning (exec : Account → ExecOutcome) (now : Nat)
    (st : MState) (accountId : Nat)
    (h0 : countRunning st.accounts = 0)
    (hnf : ∀ a, (exec a).isFault = false) :
    countRunning (executeSession exec now st accountId).state.accounts = 0 ∧
    ∀ l ∈ (executeSession exec now st accountId).stores, countRunning l ≤ 1 := by
  cases hrun : st.isRunning with
  | true =>
    rw [executeSession_locked exec now st accountId hrun]
    refine ⟨h0, ?_⟩
    intro l hl
    cases hl
  | false =>
    cases hf : st.accounts.find? (fun a => a.id = accountId) with
    | none =>
      rw [executeSession_notfound exec now st accountId hrun hf]
      refine ⟨h0, ?_⟩
      intro l hl
      cases hl
    | some account =>
      cases he : exec account with
      | ok success reason =>
        have hb1 := countRunning_updateAccountStatus_le st.accounts account.id "running" none
        cases success
        · rw [executeSession_ok_false exec now st accountId account reason hrun hf he]
          have hb2 := countRunning_upd_upd st.accounts account.id "error" none none
            (by decide)
          refine ⟨?_, ?_⟩
          · show countRunning (updateAccountStatus
              (updateAccountStatus st.accounts account.id "running" none)
              account.id "error" none) = 0
            omega
          intro l hl
          simp only [List.mem_cons, List.mem_singleton, List.not_mem_nil, or_false] at hl
          rcases hl with rfl | rfl
          · omega
          · omega
        · rw [executeSession_ok_true exec now st accountId account reason hrun hf he]
          have hb2 := countRunning_upd_upd st.accounts account.id "idle" none (some now)
            (by decide)
          refine ⟨?_, ?_⟩
          · show countRunning (updateAccountStatus
              (updateAccountStatus st.accounts account.id "running" none)
              account.id "idle" (some now)) = 0
            omega
          intro l hl
          simp only [List.mem_cons, List.mem_singleton, List.not_mem_nil, or_false] at hl
          rcases hl with rfl | rfl
          · omega
          · omega
      | fault msg =>
        have := hnf account
        rw [he] at this
        simp [ExecOutcome.isFault] at this

/-- The pending test depends only on the `lastRun` field. -/
theorem isPending_congr_lastRun (d : Nat) (a b : Account)
    (h : a.lastRun = b.lastRun) : isPending d a = isPending d b := by
  unfold isPending
  rw [h]

/-- Over any invocation sequence of a never-throwing executor starting from a
store with no running record, each invocation ends with no running record
and every store snapshot observed along the way holds at most one. -/
theorem runSeq_countRunning (exec : Account → ExecOutcome) (now : Nat)
    (ids : List Nat) (st : MState)
    (h0 : countRunning st.accounts = 0)
    (hnf : ∀ a, (exec a).isFault = false) :
    countRunning (runSeq exec now ids st).1.accounts = 0 ∧
    ∀ l ∈ (runSeq exec now ids st).2, countRunning l ≤ 1 := by
  induction ids generalizing st with
  | nil =>
    refine ⟨h0, ?_⟩
    intro l hl
    cases hl
  | cons id ids ih =>
    obtain ⟨he0, hes⟩ := executeSession_countRunning exec now st id h0 hnf
    obtain ⟨hi0, his⟩ := ih (executeSession exec now st id).state he0
    simp only [runSeq]
    refine ⟨hi0, ?_⟩
    intro l hl
    rcases List.mem_append.mp hl with hl | hl
    · exact hes l hl
    · exact his l hl

/-! Claim theorems. -/

/-- Claim C5: the active-window predicate computed on each tick is active,
for `start < end`, exactly when the hour lies in `[start, end)` (hour `end`
itself inactive), and for `start >= end` exactly when the hour is at or
after `start` or strictly before `end`. -/
theorem c5_active_window_characterization (s e h : Nat) :
    isActiveTime s e h = true ↔
      ((s < e ∧ s ≤ h ∧ h < e) ∨ (e ≤ s ∧ (s ≤ h ∨ h < e))) := by
  unfold isActiveTime
  split <;> rename_i hc <;> simp <;> omega

/-- Claim C1, evaluated at the failing input: for the cross-midnight schedule
`{start:22, end:8}` at hour 23 the window test reports active and one
account is pending with the lock free, yet the tick invokes nothing and
changes nothing: the per-candidate re-check `hour >= end` (23 >= 8) stops
the batch before the first candidate. -/
theorem c1_cross_midnight_tick_runs_nothing :
    isActiveTime 22 8 23 = true ∧
    stA.isRunning = false ∧
    pendingAccounts (utcDate 0) stA.accounts = [acctA] ∧
    checkAndRun exOK 0 23 22 8 stA = (stA, []) := by
  decide

/-- Claim C9: when the orchestration lock is held at entry, the orchestrator
returns immediately a failure whose message is the local-contention text,
not `"BUSY"`, with the state unchanged (lock not re-acquired, no account
read or written) and no event dispatched. -/
theorem c9_locked_rejects_without_side_effects (exec : Account → ExecOutcome)
    (now : Nat) (st : MState) (accountId : Nat) (h : st.isRunning = true) :
    (executeSession exec now st accountId).result.success = false ∧
    (executeSession exec now st accountId).result.message =
      some "Bot is already running a session." ∧
    (executeSession exec now st accountId).result.message ≠ some "BUSY" ∧
    (executeSession exec now st accountId).state = st ∧
    (executeSession exec now st accountId).events = [] ∧
    (executeSession exec now st accountId).stores = [] := by
  rw [executeSession_locked exec now st accountId h]
  refine ⟨rfl, rfl, ?_, rfl, rfl, rfl⟩
  simp

/-- Witness for C9 at a concrete locked state. -/
theorem c9_witness :
    (executeSession exOK 0 stLocked 1).result.success = false ∧
    (executeSession exOK 0 stLocked 1).result.message =
      some "Bot is already running a session." ∧
    (executeSession exOK 0 stLocked 1).result.message ≠ some "BUSY" ∧
    (executeSession exOK 0 stLocked 1).state = stLocked ∧
    (executeSession exOK 0 stLocked 1).events = [] ∧
    (executeSession exOK 0 stLocked 1).stores = [] :=
  c9_locked_rejects_without_side_effects exOK 0 stLocked 1 rfl

/-- Claim C6: an orchestrator invocation entered with the lock free releases
the lock on every exit path, and an unexpected executor fault is caught and
converted into a failure result whose message is the fault's description. -/
theorem c6_lock_released_and_fault_converted (exec : Account → ExecOutcome)
    (now : Nat) (st : MState) (accountId : Nat) (h : st.isRunning = false) :
    (executeSession exec now st accountId).state.isRunning = false ∧
    (∀ account msg, st.accounts.find? (fun a => a.id = accountId) = some account →
      exec account = .fault msg →
      (executeSession exec now st accountId).result =
        { success := false, message := some msg }) := by
  refine ⟨executeSession_isRunning_false exec now st accountId h, ?_⟩
  intro account msg hf he
  rw [executeSession_fault exec now st accountId account msg h hf he]

/-- Witness for C6 at a concrete throwing executor. -/
theorem c6_witness :
    (executeSession exFaultAll 0 stA 1).state.isRunning = false ∧
    (executeSession exFaultAll 0 stA 1).result =
      { success := false, message := some "boom" } := by
  have h := c6_lock_released_and_fault_converted exFaultAll 0 stA 1 rfl
  exact ⟨h.1, h.2 acctA "boom" (by decide) rfl⟩

/-- Claim C10: when the executor fails with reason exactly `"BUSY"`, the
orchestrator still sets that account's status to `error` — the same as any
other failure — before returning the BUSY result to the batch loop. -/
theorem c10_busy_failure_sets_error (exec : Account → ExecOutcome) (now : Nat)
    (st : MState) (accountId : Nat) (account : Account)
    (hlock : st.isRunning = false)
    (hf : st.accounts.find? (fun a => a.id = accountId) = some account)
    (he : exec account = .ok false "BUSY")
    (hnodup : (st.accounts.map Account.id).Nodup) :
    (executeSession exec now st accountId).result =
      { success := false, message := some "BUSY" } ∧
    (executeSession exec now st accountId).state.accounts =
      st.accounts.map (fun b =>
        if b.id = account.id then { b with status := "error" } else b) := by
  rw [executeSession_ok_false exec now st accountId account "BUSY" hlock hf he]
  refine ⟨by simp, ?_⟩
  show updateAccountStatus
      (updateAccountStatus st.accounts account.id "running" none)
      account.id "error" none = _
  exact updateAccountStatus_twice_eq_map st.accounts account.id "running" "error" hnodup

/-- Witness for C10: account B of the two-account store receives BUSY. -/
theorem c10_witness :
    (executeSession exBusy2 0 stAB 2).result =
      { success := false, message := some "BUSY" } ∧
    (executeSession exBusy2 0 stAB 2).state.accounts =
      stAB.accounts.map (fun b =>
        if b.id = acctB.id then { b with status := "error" } else b) :=
  c10_busy_failure_sets_error exBusy2 0 stAB 2 acctB rfl (by decide) (by decide)
    (by decide)

/-- Claim C4: on any executor failure result the orchestrator sets the
account's status to `error`, leaves `lastRun` and every other field of every
record unchanged, and the account — if it was pending — is selected as
pending again by the next tick's filter. -/
theorem c4_failure_sets_error_keeps_lastRun (exec : Account → ExecOutcome)
    (now : Nat) (st : MState) (accountId : Nat) (account : Account)
    (reason : String)
    (hlock : st.isRunning = false)
    (hf : st.accounts.find? (fun a => a.id = accountId) = some account)
    (he : exec account = .ok false reason)
    (hnodup : (st.accounts.map Account.id).Nodup) :
    (executeSession exec now st accountId).result.success = false ∧
    (executeSession exec now st accountId).result.message = some reason ∧
    (executeSession exec now st accountId).state.accounts =
      st.accounts.map (fun b =>
        if b.id = account.id then { b with status := "error" } else b) ∧
    (∀ d : Nat, isPending d { account with status := "error" } =
      isPending d account) ∧
    (∀ d : Nat, isPending d account = true →
      { account with status := "error" } ∈
        pendingAccounts d (executeSession exec now st accountId).state.accounts) := by
  rw [executeSession_ok_false exec now st accountId account reason hlock hf he]
  have hacc : updateAccountStatus
      (updateAccountStatus st.accounts account.id "running" none)
      account.id "error" none =
      st.accounts.map (fun b =>
        if b.id = account.id then { b with status := "error" } else b) :=
    updateAccountStatus_twice_eq_map st.accounts account.id "running" "error" hnodup
  refine ⟨?_, ?_, hacc, ?_, ?_⟩
  · by_cases hr : reason = "BUSY" <;> simp [hr]
  · by_cases hr : reason = "BUSY" <;> simp [hr]
  · intro d
    exact isPending_congr_lastRun d _ _ rfl
  · intro d hd
    have hmem : account ∈ st.accounts := List.mem_of_find?_eq_some hf
    have hmem2 : { account with status := "error" } ∈
        st.accounts.map (fun b =>
          if b.id = account.id then { b with status := "error" } else b) :=
      List.mem_map.mpr ⟨account, hmem, by rw [if_pos rfl]⟩
    show _ ∈ pendingAccounts d (updateAccountStatus
      (updateAccountStatus st.accounts account.id "running" none)
      account.id "error" none)
    rw [hacc]
    unfold pendingAccounts
    refine List.mem_filter.mpr ⟨hmem2, ?_⟩
    have hsame : isPending d { account with status := "error" } =
        isPending d account := isPending_congr_lastRun d _ _ rfl
    rw [hsame]
    exact hd

/-- Witness for C4 at a concrete ordinary failure. -/
theorem c4_witness :
    (executeSession exFailBad 5 stA 1).result.success = false ∧
    (executeSession exFailBad 5 stA 1).result.message = some "bad credentials" ∧
    (executeSession exFailBad 5 stA 1).state.accounts =
      stA.accounts.map (fun b =>
        if b.id = acctA.id then { b with status := "error" } else b) ∧
    { acctA with status := "error" } ∈
      pendingAccounts 0 (executeSession exFailBad 5 stA 1).state.accounts := by
  have h := c4_failure_sets_error_keeps_lastRun exFailBad 5 stA 1 acctA
    "bad credentials" rfl (by decide) rfl (by decide)
  exact ⟨h.1, h.2.1, h.2.2.1, h.2.2.2.2 0 (by decide)⟩

/-- Counterexample to claim C2 as stated: starting from a lock-free store
with no running record, an invocation whose executor throws leaves account A
stuck in `running` (the catch path returns without resetting the status),
and the next invocation then marks account B `running` as well — an
observable store snapshot with two `running` records. -/
theorem c2_counterexample_two_running :
    stAB.isRunning = false ∧
    countRunning stAB.accounts = 0 ∧
    ∃ l ∈ (runSeq exFault1 0 [1, 2] stAB).2, 2 ≤ countRunning l := by
  decide

/-- Claim C2 (amended): provided no invocation's executor throws an
unexpected fault, every observable store — the initial one and every
snapshot taken during any sequence of orchestrator invocations starting from
a store with no `running` record — holds at most one `running` account. -/
theorem c2_amended_at_most_one_running (exec : Account → ExecOutcome)
    (now : Nat) (ids : List Nat) (st : MState)
    (h0 : countRunning st.accounts = 0)
    (hnf : ∀ a, (exec a).isFault = false) :
    ∀ l ∈ st.accounts :: (runSeq exec now ids st).2, countRunning l ≤ 1 := by
  intro l hl
  rcases List.mem_cons.mp hl with rfl | hl
  · omega
  · exact (runSeq_countRunning exec now ids st h0 hnf).2 l hl

/-- Witness for the amended C2: the first store snapshot of a concrete
two-invocation sequence (account A mid-session) holds at most one running
record. -/
theorem c2_witness :
    countRunning ((runSeq exOK 0 [1, 2] stAB).2.getD 0 []) ≤ 1 :=
  c2_amended_at_most_one_running exOK 0 [1, 2] stAB (by decide) (fun _ => rfl)
    ((runSeq exOK 0 [1, 2] stAB).2.getD 0 []) (by decide)

/-- Counterexample to claim C7 as stated: with a +330-minute local offset
(the deployment's IST), an account whose `lastRun` (minute 1439, i.e. 23:59
UTC of day 0) falls on the *same local calendar date* as the current instant
(minute 1441) is nevertheless selected as pending and run by the tick,
because the code compares `toISOString()` (UTC) date prefixes, not local
dates. -/
theorem c7_counterexample_local_vs_utc :
    isPendingSpecLocal 330 1441 acctStale = false ∧
    isPending (utcDate 1441) acctStale = true ∧
    acctStale ∈ pendingAccounts (utcDate 1441) stStale.accounts ∧
    Event.execCall acctStale.id ∈ (checkAndRun exOK 1441 12 10 20 stStale).2 := by
  decide

/-- Claim C7 (amended): the pending set computed on each tick is exactly the
accounts whose `lastRun` is null or whose `lastRun` *UTC* calendar date (the
ISO-string prefix) differs from the current UTC calendar date. -/
theorem c7_amended_pending_iff_utc (today : Nat) (accounts : List Account)
    (a : Account) :
    a ∈ pendingAccounts today accounts ↔
      (a ∈ accounts ∧
        (a.lastRun = none ∨ ∃ t, a.lastRun = some t ∧ utcDate t ≠ today)) := by
  unfold pendingAccounts
  rw [List.mem_filter]
  cases hlr : a.lastRun with
  | none => simp [isPending, hlr]
  | some t =>
    simp only [isPending, hlr]
    by_cases ht : utcDate t = today <;> simp [ht]

/-- The report classification equals three filters of the account list: the
completed-today filter, the status-error filter, and the remainder. -/
theorem classifyAccounts_eq_filters (today : Nat) (l : List Account) :
    classifyAccounts today l =
      ((l.filter (fun a => ranToday today a && decide (a.status ≠ "error"))).map
         Account.name,
       (l.filter (fun a => decide (a.status = "error"))).map Account.name,
       (l.filter (fun a =>
         !(ranToday today a && decide (a.status ≠ "error")) &&
           !decide (a.status = "error"))).map Account.name) := by
  induction l with
  | nil => rfl
  | cons a rest ih =>
    simp only [classifyAccounts, ih, List.filter_cons]
    by_cases hR : ranToday today a = true <;> by_cases hE : a.status = "error" <;>
      simp [hR, hE]

/-- Claim C8: the Reporter leaves the store untouched and partitions the
account list into exactly the three claimed categories: Completed = ran
today with non-error status, Failed = status `error` regardless of
`lastRun`, Not run = the rest; the categories are pairwise disjoint and
exhaustive. -/
theorem c8_report_partition_readonly (today : Nat) (st : MState) :
    (generateDailyReport today st).1 = st ∧
    (generateDailyReport today st).2.1 =
      (st.accounts.filter (fun a =>
        ranToday today a && decide (a.status ≠ "error"))).map Account.name ∧
    (generateDailyReport today st).2.2.1 =
      (st.accounts.filter (fun a => decide (a.status = "error"))).map
        Account.name ∧
    (generateDailyReport today st).2.2.2 =
      (st.accounts.filter (fun a =>
        !(ranToday today a && decide (a.status ≠ "error")) &&
          !decide (a.status = "error"))).map Account.name ∧
    ∀ a : Account,
      ((ranToday today a && decide (a.status ≠ "error")) = true ∧
        ¬ a.status = "error" ∧
        ¬ ((!(ranToday today a && decide (a.status ≠ "error")) &&
            !decide (a.status = "error")) = true)) ∨
      ((ranToday today a && decide (a.status ≠ "error")) = false ∧
        a.status = "error" ∧
        ¬ ((!(ranToday today a && decide (a.status ≠ "error")) &&
            !decide (a.status = "error")) = true)) ∨
      ((ranToday today a && decide (a.status ≠ "error")) = false ∧
        ¬ a.status = "error" ∧
        (!(ranToday today a && decide (a.status ≠ "error")) &&
          !decide (a.status = "error")) = true) := by
  have hc := classifyAccounts_eq_filters today st.accounts
  refine ⟨rfl, ?_, ?_, ?_, ?_⟩
  · show (classifyAccounts today st.accounts).1 = _
    rw [hc]
  · show (classifyAccounts today st.accounts).2.1 = _
    rw [hc]
  · show (classifyAccounts today st.accounts).2.2 = _
    rw [hc]
  · intro a
    by_cases hR : ranToday today a = true <;> by_cases hE : a.status = "error" <;>
      simp [hR, hE]

/-- Claim C3: in a batch whose candidate `b` yields the `"BUSY"` result, no
candidate after `b` is ever given to the executor during that tick, and `b`
and every later candidate keep their `lastRun` unchanged and still satisfy
the pending predicate in the final store. -/
theorem c3_busy_halts_batch_and_keeps_pending (exec : Account → ExecOutcome)
    (now currentHour endHour : Nat) (pre : List Account) (b : Account)
    (post : List Account) (st : MState)
    (hlock : st.isRunning = false)
    (hnodup : ((pre ++ b :: post).map Account.id).Nodup)
    (hfind : ∀ a ∈ pre ++ b :: post,
      st.accounts.find? (fun x => x.id = a.id) = some a)
    (hbusy : ∀ a : Account, a.id = b.id → exec a = ExecOutcome.ok false "BUSY")
    (hpend : ∀ a ∈ b :: post, isPending (utcDate now) a = true) :
    (∀ a ∈ post, Event.execCall a.id ∉
        (runBatch exec now currentHour endHour (pre ++ b :: post) st).2) ∧
    (∀ a ∈ b :: post, ∃ a2,
      (runBatch exec now currentHour endHour (pre ++ b :: post) st).1.accounts.find?
          (fun x => x.id = a.id) = some a2 ∧
      a2.lastRun = a.lastRun ∧ isPending (utcDate now) a2 = true) := by
  induction pre generalizing st with
  | nil =>
    simp only [List.nil_append] at hnodup hfind ⊢
    simp only [runBatch]
    by_cases hhour : endHour ≤ currentHour
    · rw [if_pos hhour]
      constructor
      · intro a ha hmem
        exact List.not_mem_nil _ hmem
      · intro a ha
        exact ⟨a, hfind a ha, rfl, hpend a ha⟩
    · rw [if_neg hhour]
      have hfb : st.accounts.find? (fun x => x.id = b.id) = some b :=
        hfind b (List.mem_cons_self _ _)
      have heb : exec b = ExecOutcome.ok false "BUSY" := hbusy b rfl
      have hpath := executeSession_ok_false exec now st b.id b "BUSY" hlock hfb heb
      have hcond : ((executeSession exec now st b.id).result.success = false ∧
          (executeSession exec now st b.id).result.message = some "BUSY") := by
        rw [hpath]
        simp
      rw [if_pos hcond]
      have hbid : b.id ∉ post.map Account.id := by
        rw [List.map_cons] at hnodup
        exact (List.nodup_cons.mp hnodup).1
      constructor
      · intro a ha hmem
        have heq : a.id = b.id :=
          executeSession_execCall_mem exec now st b.id a.id hmem
        exact hbid (heq ▸ List.mem_map_of_mem Account.id ha)
      · intro a ha
        rcases List.mem_cons.mp ha with rfl | hapost
        · have h1 := find?_lastRun_updateAccountStatus_none
            (updateAccountStatus st.accounts a.id "running" none) a.id a.id "error"
          have h2 := find?_lastRun_updateAccountStatus_none
            st.accounts a.id a.id "running"
          have h3 : ((updateAccountStatus
              (updateAccountStatus st.accounts a.id "running" none)
              a.id "error" none).find? (fun x => x.id = a.id)).map Account.lastRun =
              some a.lastRun := by
            rw [h1, h2, hfb]
            rfl
          obtain ⟨a2, hfa2, hlr⟩ := Option.map_eq_some'.mp h3
          refine ⟨a2, ?_, hlr, ?_⟩
          · rw [hpath]
            exact hfa2
          · rw [isPending_congr_lastRun (utcDate now) a2 a hlr]
            exact hpend a ha
        · have hne : a.id ≠ b.id := by
            intro heq
            exact hbid (heq ▸ List.mem_map_of_mem Account.id hapost)
          have h3 : (updateAccountStatus
              (updateAccountStatus st.accounts b.id "running" none)
              b.id "error" none).find? (fun x => x.id = a.id) = some a := by
            rw [find?_updateAccountStatus_ne _ _ _ _ _ hne,
              find?_updateAccountStatus_ne _ _ _ _ _ hne]
            exact hfind a ha
          refine ⟨a, ?_, rfl, hpend a ha⟩
          rw [hpath]
          exact h3
  | cons p pre ih =>
    rw [List.cons_append] at hnodup hfind ⊢
    simp only [runBatch]
    by_cases hhour : endHour ≤ currentHour
    · rw [if_pos hhour]
      constructor
      · intro a ha hmem
        exact List.not_mem_nil _ hmem
      · intro a ha
        refine ⟨a, hfind a ?_, rfl, hpend a ha⟩
        exact List.mem_cons_of_mem _ (List.mem_append_right _ ha)
    · rw [if_neg hhour]
      have hfp : st.accounts.find? (fun x => x.id = p.id) = some p :=
        hfind p (List.mem_cons_self _ _)
      have hpid : p.id ∉ (pre ++ b :: post).map Account.id := by
        rw [List.map_cons] at hnodup
        exact (List.nodup_cons.mp hnodup).1
      have hne : ∀ a ∈ pre ++ b :: post, a.id ≠ p.id := by
        intro a ha heq
        exact hpid (heq ▸ List.mem_map_of_mem Account.id ha)
      have hlock2 : (executeSession exec now st p.id).state.isRunning = false :=
        executeSession_isRunning_false exec now st p.id hlock
      have hnodup2 : ((pre ++ b :: post).map Account.id).Nodup := by
        rw [List.map_cons] at hnodup
        exact (List.nodup_cons.mp hnodup).2
      have hfind2 : ∀ a ∈ pre ++ b :: post,
          (executeSession exec now st p.id).state.accounts.find?
            (fun x => x.id = a.id) = some a := by
        intro a ha
        rw [executeSession_find?_ne exec now st p.id a.id (hne a ha)]
        exact hfind a (List.mem_cons_of_mem _ ha)
      obtain ⟨IH1, IH2⟩ :=
        ih (executeSession exec now st p.id).state hlock2 hnodup2 hfind2
      by_cases hc : ((executeSession exec now st p.id).result.success = false ∧
          (executeSession exec now st p.id).result.message = some "BUSY")
      · rw [if_pos hc]
        constructor
        · intro a ha hmem
          have heq : a.id = p.id :=
            executeSession_execCall_mem exec now st p.id a.id hmem
          exact hne a (List.mem_append_right _ (List.mem_cons_of_mem _ ha)) heq
        · intro a ha
          exact ⟨a, hfind2 a (List.mem_append_right _ ha), rfl, hpend a ha⟩
      · rw [if_neg hc]
        constructor
        · intro a ha hmem
          rcases List.mem_append.mp hmem with hm | hm
          · have heq : a.id = p.id :=
              executeSession_execCall_mem exec now st p.id a.id hm
            exact hne a (List.mem_append_right _ (List.mem_cons_of_mem _ ha)) heq
          · exact IH1 a ha hm
        · exact IH2

/-- Witness for C3 on the spec's scenario: A succeeds, B returns BUSY, C is
never attempted, and B and C stay pending. -/
theorem c3_witness :
    (∀ a ∈ [acctC], Event.execCall a.id ∉
        (runBatch exBusy2 720 12 20 ([acctA] ++ acctB :: [acctC]) stABC).2) ∧
    (∀ a ∈ acctB :: [acctC], ∃ a2,
      (runBatch exBusy2 720 12 20
          ([acctA] ++ acctB :: [acctC]) stABC).1.accounts.find?
          (fun x => x.id = a.id) = some a2 ∧
      a2.lastRun = a.lastRun ∧ isPending (utcDate 720) a2 = true) :=
  c3_busy_halts_batch_and_keeps_pending exBusy2 720 12 20 [acctA] acctB [acctC]
    stABC rfl (by decide) (by decide)
    (fun a ha => by simp [exBusy2, show a.id = 2 from ha])
    (by decide)
